import Mathlib

/-!
Verification of the rotating-proxy fetch scheduler and its helpers
(`src/index.ts`, `src/lib/ProxyLegacy.ts`, `src/lib/ProxyAxios.ts`,
`src/lib/ProxyPlaywright.ts`, `src/lib/siteHandlerUsingProductSchemaAxios.ts`,
`src/lib/siteHandlerUsingProductSchemaNoStealth.ts`, `src/lib/cleanText.ts`).

JavaScript strings are embedded as `List Char`; JavaScript numbers appearing
in validation logic are embedded as an explicit type with NaN and infinities
over `ℚ`; fallible code returns `Except`.
-/

namespace WebscrapingApi

/-! ### JS string primitives over `List Char` -/

/-- JS `String.prototype.startsWith`, over `List Char`. -/
def startsWithL (s pre : List Char) : Bool :=
  decide (s.take pre.length = pre)

/-- JS `String.prototype.endsWith`, over `List Char`. -/
def endsWithL (s suf : List Char) : Bool :=
  decide (suf.length ≤ s.length ∧ s.drop (s.length - suf.length) = suf)

theorem startsWithL_append_left (p r : List Char) :
    startsWithL (p ++ r) p = true := by
  simp [startsWithL, List.take_left]

theorem startsWithL_length_le {s p : List Char} (h : startsWithL s p = true) :
    p.length ≤ s.length := by
  simp only [startsWithL, decide_eq_true_eq] at h
  have := congrArg List.length h
  simp only [List.length_take] at this
  omega

theorem startsWithL_take {s p : List Char} (h : startsWithL s p = true)
    (n : ℕ) (hn : n ≤ p.length) : s.take n = p.take n := by
  simp only [startsWithL, decide_eq_true_eq] at h
  have : (s.take p.length).take n = p.take n := by rw [h]
  simpa [List.take_take, Nat.min_eq_left hn] using this

/-- A string starting with prefix `p ++ q` also starts with `p`. -/
theorem startsWithL_of_startsWithL_append {s p q : List Char}
    (h : startsWithL s (p ++ q) = true) : startsWithL s p = true := by
  simp only [startsWithL, decide_eq_true_eq] at h ⊢
  have hn : p.length ≤ (p ++ q).length := by simp
  calc s.take p.length = (s.take (p ++ q).length).take p.length := by
        rw [List.take_take, Nat.min_eq_left hn]
    _ = (p ++ q).take p.length := by rw [h]
    _ = p := by simp [List.take_left]

/-! ### `cleanImageUrl` (bottom of `src/lib/ProxyLegacy.ts`, used by the
site handlers via `src/lib/cleanImageUrl.ts`) -/

/-- The characters of `"https://"`. -/
def httpsSlashes : List Char := "https://".toList

/-- The characters of `"http://"`. -/
def httpSlashes : List Char := "http://".toList

/-- The characters of `"https:"`. -/
def httpsColon : List Char := "https:".toList

/--
`cleanImageUrl(url, origin)` from `src/lib/ProxyLegacy.ts`:
```
if (url.startsWith("//")) return `https:${url}`;
if (url.startsWith("/")) return `${origin}${url}`;
if (url.startsWith("http://")) return url.replace(/^http:\/\//, "https://");
if (url.startsWith("https://")) return url;
return `https://${url}`;
```
The `replace` of the anchored pattern swaps the seven-character scheme for
`"https://"`.
-/
def cleanImageUrl (url origin : List Char) : List Char :=
  if startsWithL url ['/', '/'] then httpsColon ++ url
  else if startsWithL url ['/'] then origin ++ url
  else if startsWithL url httpSlashes then httpsSlashes ++ url.drop 7
  else if startsWithL url httpsSlashes then url
  else httpsSlashes ++ url

theorem cleanImageUrl_starts_https {url origin : List Char}
    (h : startsWithL origin httpsSlashes = true) :
    startsWithL (cleanImageUrl url origin) httpsSlashes = true := by
  unfold cleanImageUrl
  split
  · next hss =>
    simp only [startsWithL, decide_eq_true_eq] at hss ⊢
    have h2 : url.take 2 = ['/', '/'] := by simpa using hss
    show (httpsColon ++ url).take (httpsSlashes.length) = httpsSlashes
    rw [List.take_append_eq_append_take]
    simp [httpsColon, httpsSlashes, h2]
  · split
    · next hs =>
      simp only [startsWithL, decide_eq_true_eq] at h ⊢
      have hlen : httpsSlashes.length ≤ origin.length := by
        have := congrArg List.length h
        simp only [List.length_take] at this
        omega
      rw [List.take_append_eq_append_take]
      rw [Nat.sub_eq_zero_of_le hlen]
      simp [h]
    · split
      · exact startsWithL_append_left httpsSlashes _
      · split
        · assumption
        · exact startsWithL_append_left httpsSlashes _

theorem startsWithL_eq_false_of_take {s p t : List Char}
    (hts : s.take p.length = t) (hne : t ≠ p) : startsWithL s p = false := by
  simp [startsWithL, hts, hne]

/--
C9: for every `url` and every `origin` beginning with `"https://"`,
`cleanImageUrl url origin` begins with `"https://"`, and `cleanImageUrl` is
idempotent: applying it again to its own output returns the output unchanged.
-/
theorem cleanImageUrl_https_and_idempotent (url origin : List Char)
    (h : startsWithL origin httpsSlashes = true) :
    startsWithL (cleanImageUrl url origin) httpsSlashes = true ∧
    cleanImageUrl (cleanImageUrl url origin) origin = cleanImageUrl url origin := by
  refine ⟨cleanImageUrl_starts_https h, ?_⟩
  have hr : startsWithL (cleanImageUrl url origin) httpsSlashes = true :=
    cleanImageUrl_starts_https h
  set r := cleanImageUrl url origin with hrdef
  have ht2 : r.take 2 = ['h', 't'] := by
    have := startsWithL_take hr 2 (by decide)
    rw [show httpsSlashes.take 2 = ['h', 't'] from by decide] at this
    exact this
  have ht1 : r.take 1 = ['h'] := by
    have := startsWithL_take hr 1 (by decide)
    rw [show httpsSlashes.take 1 = ['h'] from by decide] at this
    exact this
  have ht7 : r.take 7 = "https:/".toList := by
    have := startsWithL_take hr 7 (by decide)
    rw [show httpsSlashes.take 7 = "https:/".toList from by decide] at this
    exact this
  have h1 : startsWithL r ['/', '/'] = false :=
    startsWithL_eq_false_of_take ht2 (by decide)
  have h2 : startsWithL r ['/'] = false :=
    startsWithL_eq_false_of_take ht1 (by decide)
  have h3 : startsWithL r httpSlashes = false :=
    startsWithL_eq_false_of_take ht7 (by decide)
  simp [cleanImageUrl, h1, h2, h3, hr]

/-- C9 witness: the theorem instantiated at a concrete relative URL and a
concrete `https` origin. -/
theorem cleanImageUrl_https_and_idempotent_witness :
    startsWithL (cleanImageUrl "/img/x.png".toList "https://shop.example".toList)
      httpsSlashes = true ∧
    cleanImageUrl (cleanImageUrl "/img/x.png".toList "https://shop.example".toList)
      "https://shop.example".toList =
      cleanImageUrl "/img/x.png".toList "https://shop.example".toList :=
  cleanImageUrl_https_and_idempotent _ _ (by decide)

/-! ### Request-header construction (`Proxy.fetch` in `ProxyLegacy.ts` and
`ProxyAxios.ts`) -/

/-- A JS object with string values, as the ordered list of its assignments;
a later assignment to a key overwrites an earlier one, which is the semantics
of object literals with spreads such as
`{...gen, ...caller, "User-Agent": ua}`. -/
def objGet : List (String × String) → String → Option String
  | [], _ => none
  | kv :: rest, k =>
    match objGet rest k with
    | some v => some v
    | none => if kv.1 = k then some kv.2 else none

theorem objGet_append (a b : List (String × String)) (k : String) :
    objGet (a ++ b) k =
      match objGet b k with
      | some v => some v
      | none => objGet a k := by
  induction a with
  | nil => simp [objGet]; cases objGet b k <;> rfl
  | cons kv a ih =>
    simp only [List.cons_append, objGet, List.append_eq, ih]
    cases objGet b k <;> cases objGet a k <;> rfl

/-- Headers sent by the plain proxied request in `ProxyLegacy.ts`
(`{...this.headerGenerator.getHeaders(), ...options.headers}`). -/
def legacyRequestHeaders (gen caller : List (String × String)) :
    List (String × String) :=
  gen ++ caller

/--
Headers sent by `ProxyAxios.ts`:
```
const headers = { ...userAgentHeaders, ...options.headers,
  "User-Agent": userAgentHeaders["user-agent"] || "Mozilla/5.0" };
if (options.decompress) headers["Accept-Encoding"] = "gzip, deflate, br";
else headers["Accept-Encoding"] = "identity";
```
-/
def axiosRequestHeaders (gen caller : List (String × String))
    (decompress : Bool) : List (String × String) :=
  gen ++ caller ++
    [("User-Agent", (objGet gen "user-agent").getD "Mozilla/5.0"),
     ("Accept-Encoding",
       if decompress then "gzip, deflate, br" else "identity")]

/--
C6 counterexample: in the `ProxyAxios` variant with a header name present in
both the generator output and the caller-supplied headers, the caller-supplied
value does not win: `Accept-Encoding` is forced to `"identity"`
(for `decompress = false`) after the merge, discarding the caller's value.
-/
theorem axiosRequestHeaders_caller_loses :
    objGet
      (axiosRequestHeaders [("Accept-Encoding", "gzip")]
        [("Accept-Encoding", "br")] false)
      "Accept-Encoding" = some "identity" ∧
    objGet
      (axiosRequestHeaders [("Accept-Encoding", "gzip")]
        [("Accept-Encoding", "br")] false)
      "Accept-Encoding" ≠ some "br" := by
  constructor <;> decide

/--
C6 amended: in `ProxyLegacy` the headers sent are exactly the spread-merge of
the generator's output with the caller-supplied headers and the caller wins on
every conflict; in `ProxyAxios` the caller wins on every conflict except
`"User-Agent"` and `"Accept-Encoding"`, which are forced after the merge to
the generator's `user-agent` value (default `"Mozilla/5.0"`) and to a value
selected by `options.decompress`, respectively.
-/
theorem requestHeaders_merge_behavior (gen caller : List (String × String))
    (d : Bool) (k : String) (v : String) :
    (objGet caller k = some v →
      objGet (legacyRequestHeaders gen caller) k = some v) ∧
    (objGet caller k = none →
      objGet (legacyRequestHeaders gen caller) k = objGet gen k) ∧
    (k ≠ "User-Agent" → k ≠ "Accept-Encoding" →
      objGet caller k = some v →
      objGet (axiosRequestHeaders gen caller d) k = some v) ∧
    (objGet (axiosRequestHeaders gen caller d) "User-Agent" =
      some ((objGet gen "user-agent").getD "Mozilla/5.0")) ∧
    (objGet (axiosRequestHeaders gen caller d) "Accept-Encoding" =
      some (if d then "gzip, deflate, br" else "identity")) := by
  refine ⟨?_, ?_, ?_, ?_, ?_⟩
  · intro hc
    simp [legacyRequestHeaders, objGet_append, hc]
  · intro hc
    simp [legacyRequestHeaders, objGet_append, hc]
  · intro hua hae hc
    have htail :
        objGet [("User-Agent", (objGet gen "user-agent").getD "Mozilla/5.0"),
          ("Accept-Encoding",
            if d then "gzip, deflate, br" else "identity")] k = none := by
      simp [objGet, (Ne.symm hua), (Ne.symm hae)]
    simp [axiosRequestHeaders, objGet_append, htail, hc]
  · simp [axiosRequestHeaders, objGet_append, objGet]
  · simp [axiosRequestHeaders, objGet_append, objGet]

/-- C6 witness: the amended theorem at concrete headers; the caller-supplied
`accept-language` value survives both merges and the forced values are as
described. -/
theorem requestHeaders_merge_behavior_witness :
    objGet [("accept-language", "de")] "accept-language" = some "de" ∧
    objGet
      (legacyRequestHeaders [("accept-language", "en"), ("user-agent", "G")]
        [("accept-language", "de")]) "accept-language" = some "de" ∧
    objGet
      (axiosRequestHeaders [("accept-language", "en"), ("user-agent", "G")]
        [("accept-language", "de")] true) "accept-language" = some "de" := by
  have h := requestHeaders_merge_behavior
    [("accept-language", "en"), ("user-agent", "G")]
    [("accept-language", "de")] true "accept-language" "de"
  exact ⟨by decide, h.1 (by decide), h.2.2.1 (by decide) (by decide) (by decide)⟩

/-! ### Retry and broadcast-fallback model of `Proxy.fetch`
(`ProxyLegacy.ts` and `ProxyAxios.ts`) -/

/-- Terminal errors a `fetch` call can surface. `maxTriesExceeded` is the
`MAX TRIES`/`MAX TRIES EXCEEDED` throw (it carries the URL and the current
time); `requestFailed` is the `Request to ... failed with status ...` throw of
`ProxyAxios.ts`; `noValidResponses` is the
`No valid responses from any port` throw of `sendRequestsToAllPorts`. -/
inductive FetchError where
  | maxTriesExceeded (href : String) (time : Nat)
  | requestFailed (status : Option Nat) (msg : String)
  | noValidResponses
  deriving DecidableEq, Repr

/-- An HTTP response as `ProxyLegacy.fetch` sees it: the `ok` flag and the
body text. -/
structure JsResponse where
  ok : Bool
  body : String
  deriving DecidableEq, Repr

/-- Outcome of one backend call through a port in `ProxyLegacy.ts`: the
promise either rejects (transport error) or resolves to a response. -/
inductive BackendOutcome where
  | err (msg : String)
  | resp (ok : Bool) (body : String)
  deriving DecidableEq, Repr

/-- The exact failure body that triggers the broadcast fallback. -/
def sentinelBody : String := "Error updating item info: Could not find product"

/-- The responses surviving the broadcast fan-out: ports that errored
returned `null`, ports with a non-`ok` response returned `null`, and the
`filter` keeps the rest. -/
def successBodies (portResults : List BackendOutcome) : List JsResponse :=
  portResults.filterMap fun o =>
    match o with
    | .resp true body => some ⟨true, body⟩
    | _ => none

/--
`sendRequestsToAllPorts` from `ProxyLegacy.fetch`: the same request goes
through every configured port (`portResults` has one outcome per port),
errored and non-`ok` ports are discarded, and
`validResponses[Math.floor(Math.random() * validResponses.length)]` picks the
final response; the random index sample is modeled by `r % length`.
Throws `No valid responses from any port` when nothing survived.
-/
def sendRequestsToAllPorts (portResults : List BackendOutcome) (r : Nat) :
    Except FetchError JsResponse :=
  let valid := successBodies portResults
  if h : valid.length = 0 then .error .noValidResponses
  else .ok (valid.get ⟨r % valid.length, Nat.mod_lt r (Nat.pos_of_ne_zero h)⟩)

/--
`Proxy.fetch` of `ProxyLegacy.ts`, GET/POST path, as a function of the
remaining retry budget (`remaining = maxTries - tries`; the guard
`tries >= this.maxTries` is `remaining = 0`). Returns the number of backend
attempts performed and the final result:
- a resolved response with the sentinel body and `!ok` enters the broadcast
  fallback; a fallback success is returned directly, a fallback throw is
  caught by the surrounding `catch`, which calls `this.fetch(url, options,
  tries + 1)`;
- any other resolved response is returned (even with `!ok`);
- a rejected promise is caught and retried the same way.
-/
def legacyFetchGo (href : String) (now : Nat)
    (backend : Nat → BackendOutcome)
    (broadcast : Nat → List BackendOutcome)
    (rand : Nat → Nat) : Nat → Nat → Nat × Except FetchError JsResponse
  | 0, _tries => (0, .error (.maxTriesExceeded href now))
  | remaining + 1, tries =>
    match backend tries with
    | .resp ok body =>
      if ok = false ∧ body = sentinelBody then
        match sendRequestsToAllPorts (broadcast tries) (rand tries) with
        | .ok chosen => (1, .ok chosen)
        | .error _ =>
          let rest := legacyFetchGo href now backend broadcast rand remaining (tries + 1)
          (rest.1 + 1, rest.2)
      else (1, .ok ⟨ok, body⟩)
    | .err _ =>
      let rest := legacyFetchGo href now backend broadcast rand remaining (tries + 1)
      (rest.1 + 1, rest.2)

/-- `Proxy.fetch` of `ProxyLegacy.ts` entered at attempt counter `tries`. -/
def legacyFetch (href : String) (now maxTries : Nat)
    (backend : Nat → BackendOutcome) (broadcast : Nat → List BackendOutcome)
    (rand : Nat → Nat) (tries : Nat) : Nat × Except FetchError JsResponse :=
  legacyFetchGo href now backend broadcast rand (maxTries - tries) tries

/-- The axios transport error: `error.response?.status` and `error.message`. -/
structure AxiosError where
  status : Option Nat
  msg : String

/--
`Proxy.fetch` of `ProxyAxios.ts` as a function of the remaining budget:
on a throw it retries only while `tries < this.maxTries - 1` and otherwise
throws `Request to ... failed with status ...` — not `MAX TRIES EXCEEDED`,
which fires only when the function is entered with `tries >= maxTries`.
-/
def axiosFetchGo (href : String) (now maxTries : Nat)
    (backend : Nat → Except AxiosError String) :
    Nat → Nat → Nat × Except FetchError String
  | 0, _tries => (0, .error (.maxTriesExceeded href now))
  | remaining + 1, tries =>
    match backend tries with
    | .ok payload => (1, .ok payload)
    | .error e =>
      if tries < maxTries - 1 then
        let rest := axiosFetchGo href now maxTries backend remaining (tries + 1)
        (rest.1 + 1, rest.2)
      else (1, .error (.requestFailed e.status e.msg))

/-- `Proxy.fetch` of `ProxyAxios.ts` entered at attempt counter `tries`. -/
def axiosFetch (href : String) (now maxTries : Nat)
    (backend : Nat → Except AxiosError String) (tries : Nat) :
    Nat × Except FetchError String :=
  axiosFetchGo href now maxTries backend (maxTries - tries) tries

/-- Recognizer for the `MAX TRIES` error. -/
def isMaxTriesError {α : Type} : Except FetchError α → Bool
  | .error (.maxTriesExceeded _ _) => true
  | _ => false

theorem legacyFetchGo_err_all (href : String) (now : Nat)
    (backend : Nat → BackendOutcome) (broadcast : Nat → List BackendOutcome)
    (rand : Nat → Nat) (hl : ∀ t, ∃ m, backend t = .err m) :
    ∀ rem tries, legacyFetchGo href now backend broadcast rand rem tries =
      (rem, .error (.maxTriesExceeded href now)) := by
  intro rem
  induction rem with
  | zero => intro tries; rfl
  | succ r ih =>
    intro tries
    obtain ⟨m, hm⟩ := hl tries
    simp [legacyFetchGo, hm, ih]

theorem axiosFetchGo_err_all (href : String) (now maxTries : Nat)
    (backend : Nat → Except AxiosError String)
    (ha : ∀ t, ∃ e, backend t = .error e) :
    ∀ rem tries, 1 ≤ rem → maxTries = tries + rem →
      (axiosFetchGo href now maxTries backend rem tries).1 = rem ∧
      ∃ st msg, (axiosFetchGo href now maxTries backend rem tries).2 =
        .error (.requestFailed st msg) := by
  intro rem
  induction rem with
  | zero => intro tries h1 _; omega
  | succ r ih =>
    intro tries _ hmt
    obtain ⟨e, he⟩ := ha tries
    by_cases hr : r = 0
    · subst hr
      have hlt : ¬ tries < maxTries - 1 := by omega
      simp [axiosFetchGo, he, hlt]
    · have h1r : 1 ≤ r := by omega
      have hrec := ih (tries + 1) h1r (by omega)
      have hlt : tries < maxTries - 1 := by omega
      simp only [axiosFetchGo, he, hlt, if_true]
      exact ⟨by simpa using hrec.1, hrec.2⟩

/--
C1 counterexample: `maxTries = 1` with an always-failing backend in
`ProxyAxios.ts`: `fetch` performs exactly one attempt and then raises the
generic `Request to ... failed` error, not `MaxTriesExceeded`.
-/
theorem axiosFetch_not_maxTries_counterexample :
    axiosFetch "https://t.example/" 0 1
      (fun _ => .error ⟨none, "connection reset"⟩) 0 =
      (1, .error (.requestFailed none "connection reset")) ∧
    isMaxTriesError
      (axiosFetch "https://t.example/" 0 1
        (fun _ => .error ⟨none, "connection reset"⟩) 0).2 = false := by
  constructor <;> rfl

/--
C1 amended: with an always-failing backend and `maxTries ≥ 1`, both variants
perform exactly `maxTries` attempts; `ProxyLegacy.fetch` then raises
`MaxTriesExceeded` (carrying the URL and a timestamp), while
`ProxyAxios.fetch` raises the generic request-failed error (carrying the URL,
status and message) and never `MaxTriesExceeded`.
-/
theorem maxTries_exhaustion_behavior (href : String) (now maxTries : Nat)
    (lb : Nat → BackendOutcome) (ab : Nat → Except AxiosError String)
    (br : Nat → List BackendOutcome) (rand : Nat → Nat)
    (hl : ∀ t, ∃ m, lb t = .err m) (ha : ∀ t, ∃ e, ab t = .error e)
    (h1 : 1 ≤ maxTries) :
    legacyFetch href now maxTries lb br rand 0 =
      (maxTries, .error (.maxTriesExceeded href now)) ∧
    (axiosFetch href now maxTries ab 0).1 = maxTries ∧
    (∃ st msg, (axiosFetch href now maxTries ab 0).2 =
      .error (.requestFailed st msg)) ∧
    isMaxTriesError (axiosFetch href now maxTries ab 0).2 = false := by
  have hleg := legacyFetchGo_err_all href now lb br rand hl (maxTries - 0) 0
  have hax := axiosFetchGo_err_all href now maxTries ab ha (maxTries - 0) 0
    (by omega) (by omega)
  refine ⟨by simpa [legacyFetch] using hleg, by simpa [axiosFetch] using hax.1,
    by simpa [axiosFetch] using hax.2, ?_⟩
  obtain ⟨st, msg, hmsg⟩ := hax.2
  simp only [Nat.sub_zero] at hmsg
  simp [axiosFetch, hmsg, isMaxTriesError]

/-- C1 witness: the amended theorem at `maxTries = 2` with concrete
always-failing backends. -/
theorem maxTries_exhaustion_behavior_witness :
    legacyFetch "u" 5 2 (fun _ => .err "boom") (fun _ => []) (fun _ => 0) 0 =
      (2, .error (.maxTriesExceeded "u" 5)) ∧
    (axiosFetch "u" 5 2 (fun _ => .error ⟨none, "boom"⟩) 0).1 = 2 ∧
    isMaxTriesError (axiosFetch "u" 5 2
      (fun _ => .error ⟨none, "boom"⟩) 0).2 = false := by
  have h := maxTries_exhaustion_behavior "u" 5 2 (fun _ => .err "boom")
    (fun _ => .error ⟨none, "boom"⟩) (fun _ => []) (fun _ => 0)
    (fun _ => ⟨"boom", rfl⟩) (fun _ => ⟨⟨none, "boom"⟩, rfl⟩) (by omega)
  exact ⟨h.1, h.2.1, h.2.2.2⟩

/--
C4 counterexample: with `maxTries = 2`, a backend whose response is always the
non-`ok` sentinel body, and a broadcast in which no port succeeds, the
`No valid responses from any port` throw is caught by the attempt's `catch`
and retried: the call performs a second attempt and finally surfaces
`MaxTriesExceeded`, not `NoValidResponses` after one attempt.
-/
theorem broadcast_noValidResponses_counterexample :
    legacyFetch "https://t.example/" 0 2 (fun _ => .resp false sentinelBody)
      (fun _ => [.resp false "x", .err "boom"]) (fun _ => 0) 0 =
      (2, .error (.maxTriesExceeded "https://t.example/" 0)) ∧
    ¬ ((legacyFetch "https://t.example/" 0 2 (fun _ => .resp false sentinelBody)
        (fun _ => [.resp false "x", .err "boom"]) (fun _ => 0) 0).1 = 1 ∧
       (legacyFetch "https://t.example/" 0 2 (fun _ => .resp false sentinelBody)
        (fun _ => [.resp false "x", .err "boom"]) (fun _ => 0) 0).2 =
        .error .noValidResponses) := by
  constructor
  · rfl
  · intro h
    have h1 : (2 : Nat) = 1 := h.1
    exact absurd h1 (by omega)

/--
C4 amended: the broadcast fallback sends the request through every configured
port, discards errored and non-`ok` ports, and returns one of the surviving
successful responses, each of which can be selected by the random index; if
at least one port succeeded the attempt returns that response directly with
exactly one backend attempt consumed (the attempt counter is not
incremented); if no port succeeded, `sendRequestsToAllPorts` throws
`NoValidResponses`, which is caught by the attempt's error handler and
consumes a retry like any failed attempt instead of being surfaced.
-/
theorem broadcast_fallback_behavior
    (href : String) (now maxTries : Nat) (backend : Nat → BackendOutcome)
    (broadcast : Nat → List BackendOutcome) (rand : Nat → Nat)
    (tries : Nat) (rs : List BackendOutcome) (r i : Nat) :
    (successBodies rs = [] →
      sendRequestsToAllPorts rs r = .error .noValidResponses) ∧
    (∀ _hne : successBodies rs ≠ [],
      ∃ h : r % (successBodies rs).length < (successBodies rs).length,
        sendRequestsToAllPorts rs r =
          .ok ((successBodies rs).get ⟨r % (successBodies rs).length, h⟩)) ∧
    (∀ hi : i < (successBodies rs).length,
      sendRequestsToAllPorts rs i = .ok ((successBodies rs).get ⟨i, hi⟩)) ∧
    (tries < maxTries → backend tries = .resp false sentinelBody →
      ∀ chosen, sendRequestsToAllPorts (broadcast tries) (rand tries) = .ok chosen →
        legacyFetch href now maxTries backend broadcast rand tries =
          (1, .ok chosen)) ∧
    (tries < maxTries → backend tries = .resp false sentinelBody →
      successBodies (broadcast tries) = [] →
      legacyFetch href now maxTries backend broadcast rand tries =
        ((legacyFetch href now maxTries backend broadcast rand (tries + 1)).1 + 1,
         (legacyFetch href now maxTries backend broadcast rand (tries + 1)).2)) := by
  refine ⟨?_, ?_, ?_, ?_, ?_⟩
  · intro hempty
    simp [sendRequestsToAllPorts, hempty]
  · intro hne
    have hpos : 0 < (successBodies rs).length := List.length_pos.mpr hne
    refine ⟨Nat.mod_lt r hpos, ?_⟩
    simp [sendRequestsToAllPorts, Nat.pos_iff_ne_zero.mp hpos]
  · intro hi
    have hne : (successBodies rs).length ≠ 0 := by omega
    simp [sendRequestsToAllPorts, hne, Nat.mod_eq_of_lt hi]
  · intro hlt hsent chosen hsend
    have hrem : maxTries - tries = (maxTries - (tries + 1)) + 1 := by omega
    simp [legacyFetch, hrem, legacyFetchGo, hsent, sentinelBody, hsend]
  · intro hlt hsent hempty
    have hrem : maxTries - tries = (maxTries - (tries + 1)) + 1 := by omega
    have hsend : sendRequestsToAllPorts (broadcast tries) (rand tries) =
        .error .noValidResponses := by
      simp [sendRequestsToAllPorts, hempty]
    simp [legacyFetch, hrem, legacyFetchGo, hsent, sentinelBody, hsend]

/-- C4 witness: the amended theorem at concrete inputs — a broadcast over
four ports with two survivors returns the survivor selected by the random
index, and a fallback success is returned with a single attempt consumed. -/
theorem broadcast_fallback_behavior_witness :
    sendRequestsToAllPorts [.err "x", .resp true "A", .resp false "B",
      .resp true "C"] 1 = .ok ⟨true, "C"⟩ ∧
    legacyFetch "u" 0 3 (fun _ => .resp false sentinelBody)
      (fun _ => [.err "x", .resp true "A"]) (fun _ => 0) 0 =
      (1, .ok ⟨true, "A"⟩) := by
  have h := broadcast_fallback_behavior "u" 0 3
    (fun _ => .resp false sentinelBody) (fun _ => [.err "x", .resp true "A"])
    (fun _ => 0) 0 [.err "x", .resp true "A", .resp false "B", .resp true "C"] 1 1
  refine ⟨?_, ?_⟩
  · have hc := h.2.2.1 (by decide)
    simpa using hc
  · exact h.2.2.2.1 (by decide) rfl ⟨true, "A"⟩ rfl

/-! ### TCP load-agent side channel (`agentServer` in `src/index.ts`) -/

/-- JS `Math.round` (round half toward positive infinity), for the
non-negative clamped values at hand. -/
def jsRound (x : ℚ) : ℤ := ⌊x + 1 / 2⌋

/--
The load weight of `src/index.ts`:
```
let weight = 256 - combinedPct * 2;
if (weight < 1) weight = 1;
if (weight > 256) weight = 256;
```
The machine's float arithmetic is embedded over `ℚ`.
-/
def agentWeight (combinedPct : ℚ) : ℚ :=
  let weight := 256 - combinedPct * 2
  let weight := if weight < 1 then 1 else weight
  let weight := if weight > 256 then 256 else weight
  weight

/-- The single line a connection on the agent port receives before the socket
is closed: `` `up ${Math.round(weight)}\n` `` on the normal path, `"down\n"`
when the load computation threw (the `catch` path, modeled by `none`). -/
def agentLine : Option ℚ → String
  | none => "down\n"
  | some c => "up " ++ toString (jsRound (agentWeight c)) ++ "\n"

theorem agentWeight_bounds (c : ℚ) :
    1 ≤ agentWeight c ∧ agentWeight c ≤ 256 := by
  simp only [agentWeight]
  split_ifs <;> constructor <;> linarith

/--
C8: every accepted connection on the agent port receives exactly one line,
either `"down"` on an internal error or `"up N"` for an integer `N` with
`1 ≤ N ≤ 256`: the weight is clamped into `[1, 256]` before rounding, so the
rounded value stays in that range.
-/
theorem agentLine_up_bounds (input : Option ℚ) :
    agentLine input = "down\n" ∨
    ∃ N : ℤ, 1 ≤ N ∧ N ≤ 256 ∧
      agentLine input = "up " ++ toString N ++ "\n" := by
  cases input with
  | none => exact Or.inl rfl
  | some c =>
    refine Or.inr ⟨jsRound (agentWeight c), ?_, ?_, rfl⟩
    · rw [jsRound, Int.le_floor]
      have := (agentWeight_bounds c).1
      push_cast
      linarith
    · have hlt : jsRound (agentWeight c) < 257 := by
        rw [jsRound, Int.floor_lt]
        have := (agentWeight_bounds c).2
        push_cast
        linarith
      omega

/-! ### Rendering-engine resource usage of one `BROWSER` attempt
(`ProxyLegacy.ts` lines 211-245, the unnamed puppeteer variant, and
`Proxy2.fetch` in `ProxyPlaywright.ts`) -/

/-- Where a page-rendering session comes from: the long-lived browser stored
on the claimed `ProxyPort` (`port.browser`), or a browser launched by the
attempt itself. -/
inductive SessionSrc where
  | portBound
  | freshLaunch
  deriving DecidableEq, Repr

/-- The rendering-engine operations one attempt performs, in order. -/
inductive BrowserEvent where
  | launchSession
  | newPage (src : SessionSrc)
  | authenticate
  | navigate
  | extractContent
  | closePage
  | closeSession (src : SessionSrc)
  deriving DecidableEq, Repr

/--
The `BROWSER` branch of `ProxyLegacy.fetch` (the unnamed puppeteer variant
differs only by request-interception filtering, not in page or session
lifecycle): `const browser = await port.browser; const page = await
browser.newPage(); try { authenticate; goto; content; ... } finally
{ page.close() }` — the page is closed on both outcomes, the port's browser
never is.
-/
def legacyBrowserAttemptTrace (success : Bool) : List BrowserEvent :=
  if success then
    [.newPage .portBound, .authenticate, .navigate, .extractContent, .closePage]
  else
    [.newPage .portBound, .authenticate, .navigate, .closePage]

/--
One attempt of `Proxy2.fetch` in `ProxyPlaywright.ts`: `browser = await
firefox.launch(...); context = await browser.newContext(...); page = await
context.newPage(); page.goto; page.content()`, then `page.close; context.close;
browser.close` on success, and `page.close; browser.close` in the failure
handler — the browser is launched and closed by the attempt itself.
-/
def playwrightAttemptTrace (success : Bool) : List BrowserEvent :=
  if success then
    [.launchSession, .newPage .freshLaunch, .navigate, .extractContent,
     .closePage, .closeSession .freshLaunch]
  else
    [.launchSession, .newPage .freshLaunch, .navigate, .closePage,
     .closeSession .freshLaunch]

/--
C7 counterexample: a successful render attempt of the Playwright variant
closes the rendering-engine session it launched, and never opens a page in a
port-bound persistent session — there is none in that variant.
-/
theorem playwright_session_counterexample :
    BrowserEvent.closeSession .freshLaunch ∈ playwrightAttemptTrace true ∧
    BrowserEvent.launchSession ∈ playwrightAttemptTrace true ∧
    BrowserEvent.newPage .portBound ∉ playwrightAttemptTrace true := by
  decide

/--
C7 amended: in the puppeteer variants (`ProxyLegacy.ts` and the unnamed
variant) every render attempt opens a new page in the port's persistent
session, closes exactly that one page whatever the outcome, and never closes
or launches a session — the port's session survives for later attempts; the
Playwright variant instead launches a fresh browser inside the attempt and
closes it before returning.
-/
theorem browser_attempt_session_lifecycle (success : Bool) :
    (BrowserEvent.newPage .portBound ∈ legacyBrowserAttemptTrace success ∧
      (legacyBrowserAttemptTrace success).count .closePage = 1 ∧
      (∀ src, BrowserEvent.closeSession src ∉ legacyBrowserAttemptTrace success) ∧
      BrowserEvent.launchSession ∉ legacyBrowserAttemptTrace success) ∧
    ((playwrightAttemptTrace success).count .closePage = 1 ∧
      BrowserEvent.launchSession ∈ playwrightAttemptTrace success ∧
      BrowserEvent.closeSession .freshLaunch ∈ playwrightAttemptTrace success ∧
      BrowserEvent.newPage .portBound ∉ playwrightAttemptTrace success) := by
  cases success <;> refine ⟨⟨by decide, by decide, ?_, by decide⟩, by decide⟩ <;>
    intro src <;> cases src <;> decide

/-! ### Scheduler state machine (`Proxy.fetch` resource lifecycle, shared by
`ProxyLegacy.ts` and `ProxyAxios.ts`)

The single-threaded event loop interleaves logical fetch attempts at
suspension points; each transition below is one atomic block between
suspension points. `hostnamesMutex.runExclusive` makes the check-and-add of
`getAvailablePort` and the delete of `waitAndRelease` atomic blocks. The
`sleep(delay)` of `waitAndRelease` (helper `src/lib/sleep.ts`, a missing file;
modelled from the spec as a timer that fires no earlier than its delay)
gates the claim-release transition on the clock. -/

structure SchedConfig where
  numPorts : Nat
  successDelay : Nat
  errorDelay : Nat

/-- The cool-down selected by `waitAndRelease`:
`success ? this.sameHostnameSuccessDelay : this.sameHostnameErrorDelay`. -/
def relDelay (cfg : SchedConfig) (success : Bool) : Nat :=
  if success then cfg.successDelay else cfg.errorDelay

/-- The lifecycle position of one logical fetch attempt. Hostnames and ports
are numbered. An attempt acquires a hostname permit (`hasPermit`), then a
(port, hostname) claim (`hasClaim`); when the backend settles at
`outcomeTime`, `waitAndRelease` is called (`doneWait`); after the cool-down
the hostname is deleted from the port's set at `releaseTime` (`permitOnly`)
and the semaphore permit is then returned at `permitReleaseTime`
(`finished`). -/
inductive Phase where
  | start
  | hasPermit (h : Nat)
  | hasClaim (h p : Nat)
  | doneWait (h p : Nat) (outcomeTime : Nat) (success : Bool)
  | permitOnly (h : Nat) (outcomeTime : Nat) (success : Bool) (releaseTime : Nat)
  | finished (h : Nat) (outcomeTime : Nat) (success : Bool)
      (releaseTime permitReleaseTime : Nat)
  deriving DecidableEq, Repr

/-- Process-wide scheduler state: the clock, the lazily created per-hostname
semaphores (`this.semaphores`), each port's claimed-hostname set
(`port.hostnames`), and the attempts. -/
structure SchedState where
  clock : Nat
  sem : Nat → Option Nat
  claimed : Nat → Nat → Bool
  attempts : List Phase

/-- Process start: no semaphores, no claims, no attempts. -/
def initState : SchedState :=
  { clock := 0, sem := fun _ => none, claimed := fun _ _ => false, attempts := [] }

/-- Does a phase hold the claim on (port `p`, hostname `h`)? The claim is
held from the atomic check-and-add until the deferred delete runs. -/
def holdsClaim (p h : Nat) : Phase → Bool
  | .hasClaim h₀ p₀ => decide (h₀ = h ∧ p₀ = p)
  | .doneWait h₀ p₀ _ _ => decide (h₀ = h ∧ p₀ = p)
  | _ => false

/-- Does a phase hold a semaphore permit for hostname `h`? This is the
"in-flight past permit acquisition and before release" window. -/
def usesPermit (h : Nat) : Phase → Bool
  | .hasPermit h₀ => decide (h₀ = h)
  | .hasClaim h₀ _ => decide (h₀ = h)
  | .doneWait h₀ _ _ _ => decide (h₀ = h)
  | .permitOnly h₀ _ _ _ => decide (h₀ = h)
  | _ => false

/-- One atomic step of the scheduler. -/
inductive Step (cfg : SchedConfig) : SchedState → SchedState → Prop
  | tick (s : SchedState) :
      Step cfg s { s with clock := s.clock + 1 }
  | spawn (s : SchedState) :
      Step cfg s { s with attempts := s.attempts ++ [.start] }
  | createSem (s : SchedState) (h : Nat) (hnone : s.sem h = none) :
      Step cfg s { s with
        sem := fun h' => if h' = h then some cfg.numPorts else s.sem h' }
  | acquirePermit (s : SchedState) (i h v : Nat)
      (hi : s.attempts.get? i = some .start) (hsem : s.sem h = some (v + 1)) :
      Step cfg s { s with
        sem := fun h' => if h' = h then some v else s.sem h',
        attempts := s.attempts.set i (.hasPermit h) }
  | claimPort (s : SchedState) (i h p : Nat)
      (hi : s.attempts.get? i = some (.hasPermit h)) (hp : p < cfg.numPorts)
      (hfree : s.claimed p h = false) :
      Step cfg s { s with
        claimed := fun p' h' => if p' = p ∧ h' = h then true else s.claimed p' h',
        attempts := s.attempts.set i (.hasClaim h p) }
  | finishAttempt (s : SchedState) (i h p : Nat) (succ : Bool)
      (hi : s.attempts.get? i = some (.hasClaim h p)) :
      Step cfg s { s with
        attempts := s.attempts.set i (.doneWait h p s.clock succ) }
  | fireRelease (s : SchedState) (i h p t0 : Nat) (succ : Bool)
      (hi : s.attempts.get? i = some (.doneWait h p t0 succ))
      (htime : t0 + relDelay cfg succ ≤ s.clock) :
      Step cfg s { s with
        claimed := fun p' h' => if p' = p ∧ h' = h then false else s.claimed p' h',
        attempts := s.attempts.set i (.permitOnly h t0 succ s.clock) }
  | releasePermit (s : SchedState) (i h t0 : Nat) (succ : Bool) (rt v : Nat)
      (hi : s.attempts.get? i = some (.permitOnly h t0 succ rt))
      (hsem : s.sem h = some v) :
      Step cfg s { s with
        sem := fun h' => if h' = h then some (v + 1) else s.sem h',
        attempts := s.attempts.set i (.finished h t0 succ rt s.clock) }

/-- States reachable from process start. -/
def Reachable (cfg : SchedConfig) (s : SchedState) : Prop :=
  Relation.ReflTransGen (Step cfg) initState s

/-- Time bookkeeping carried by a phase is consistent with the clock and the
configured cool-downs. -/
def timeOk (cfg : SchedConfig) (clock : Nat) : Phase → Prop
  | .doneWait _ _ t0 _ => t0 ≤ clock
  | .permitOnly _ t0 succ rt => t0 + relDelay cfg succ ≤ rt ∧ rt ≤ clock
  | .finished _ t0 succ rt prt =>
      t0 + relDelay cfg succ ≤ rt ∧ rt ≤ prt ∧ prt ≤ clock
  | _ => True

/-- The inductive invariant of the scheduler state. -/
structure Inv (cfg : SchedConfig) (s : SchedState) : Prop where
  claim_unique : ∀ p h, s.attempts.countP (holdsClaim p h) ≤ 1
  claim_free : ∀ p h, s.claimed p h = false →
    s.attempts.countP (holdsClaim p h) = 0
  sem_none : ∀ h, s.sem h = none → s.attempts.countP (usesPermit h) = 0
  sem_count : ∀ h v, s.sem h = some v →
    v + s.attempts.countP (usesPermit h) = cfg.numPorts
  time_ok : ∀ ph ∈ s.attempts, timeOk cfg s.clock ph

theorem timeOk_mono {cfg : SchedConfig} {c c' : Nat} (hcc : c ≤ c')
    (ph : Phase) (h : timeOk cfg c ph) : timeOk cfg c' ph := by
  cases ph <;> simp [timeOk] at h ⊢ <;> omega

theorem countP_set_of_get? {α : Type} (P : α → Bool) :
    ∀ (l : List α) (i : Nat) (a x : α), l.get? i = some a →
      (l.set i x).countP P + (if P a then 1 else 0) =
      l.countP P + (if P x then 1 else 0) := by
  intro l
  induction l with
  | nil => intro i a x h; simp at h
  | cons b l ih =>
    intro i a x h
    cases i with
    | zero =>
      simp only [List.get?] at h
      injection h with h
      subst h
      simp only [List.set, List.countP_cons]
      omega
    | succ j =>
      simp only [List.get?] at h
      have := ih j a x h
      simp only [List.set, List.countP_cons]
      omega

theorem countP_pos_of_get? {α : Type} (P : α → Bool) (l : List α) (i : Nat)
    (a : α) (hget : l.get? i = some a) (ha : P a = true) :
    1 ≤ l.countP P := by
  have hm : a ∈ l := List.get?_mem hget
  have hpos : 0 < l.countP P := List.countP_pos_iff.mpr ⟨a, hm, ha⟩
  omega

theorem countP_set_eq {α : Type} (P : α → Bool) (l : List α) (i : Nat)
    (a x : α) (h : l.get? i = some a) (hax : P a = P x) :
    (l.set i x).countP P = l.countP P := by
  have hc := countP_set_of_get? P l i a x h
  rw [hax] at hc
  omega

theorem inv_init (cfg : SchedConfig) : Inv cfg initState := by
  refine ⟨?_, ?_, ?_, ?_, ?_⟩
  · intro p h; simp [initState]
  · intro p h _; simp [initState]
  · intro h _; simp [initState]
  · intro h v hv; simp [initState] at hv
  · intro ph hm; simp [initState] at hm

theorem inv_step {cfg : SchedConfig} {s s' : SchedState}
    (st : Step cfg s s') (hs : Inv cfg s) : Inv cfg s' := by
  cases st with
  | tick =>
    exact ⟨hs.claim_unique, hs.claim_free, hs.sem_none, hs.sem_count,
      fun ph hm => timeOk_mono (Nat.le_succ _) ph (hs.time_ok ph hm)⟩
  | spawn =>
    refine ⟨?_, ?_, ?_, ?_, ?_⟩ <;> dsimp only
    · intro p h
      rw [List.countP_append,
        show List.countP (holdsClaim p h) [Phase.start] = 0 from rfl]
      simpa using hs.claim_unique p h
    · intro p h hf
      rw [List.countP_append,
        show List.countP (holdsClaim p h) [Phase.start] = 0 from rfl]
      simpa using hs.claim_free p h hf
    · intro h hn
      rw [List.countP_append,
        show List.countP (usesPermit h) [Phase.start] = 0 from rfl]
      simpa using hs.sem_none h hn
    · intro h v hv
      rw [List.countP_append,
        show List.countP (usesPermit h) [Phase.start] = 0 from rfl]
      have := hs.sem_count h v hv
      omega
    · intro ph hm
      rcases List.mem_append.mp hm with hm' | hm'
      · exact hs.time_ok ph hm'
      · simp at hm'
        subst hm'
        trivial
  | createSem h hnone =>
    refine ⟨hs.claim_unique, hs.claim_free, ?_, ?_, hs.time_ok⟩ <;> dsimp only
    · intro h' hn
      by_cases hh : h' = h
      · simp [hh] at hn
      · simp [hh] at hn
        exact hs.sem_none h' hn
    · intro h' v hv
      by_cases hh : h' = h
      · subst hh
        simp at hv
        have h0 := hs.sem_none h' hnone
        omega
      · simp [hh] at hv
        exact hs.sem_count h' v hv
  | acquirePermit i h v hi hsem =>
    refine ⟨?_, ?_, ?_, ?_, ?_⟩ <;> dsimp only
    · intro p' h'
      rw [countP_set_eq (holdsClaim p' h') s.attempts i Phase.start
        (Phase.hasPermit h) hi rfl]
      exact hs.claim_unique p' h'
    · intro p' h' hf
      rw [countP_set_eq (holdsClaim p' h') s.attempts i Phase.start
        (Phase.hasPermit h) hi rfl]
      exact hs.claim_free p' h' hf
    · intro h' hn
      by_cases hh : h' = h
      · simp [hh] at hn
      · simp [hh] at hn
        rw [countP_set_eq (usesPermit h') s.attempts i Phase.start
          (Phase.hasPermit h) hi ?_]
        · exact hs.sem_none h' hn
        · show false = usesPermit h' (Phase.hasPermit h)
          rw [show usesPermit h' (Phase.hasPermit h) = decide (h = h') from rfl]
          simp
          exact fun hhh => absurd hhh.symm hh
    · intro h' v' hv
      have hc := countP_set_of_get? (usesPermit h') s.attempts i Phase.start
        (Phase.hasPermit h) hi
      by_cases hh : h' = h
      · subst hh
        simp at hv
        have hold := hs.sem_count h' (v + 1) hsem
        rw [show usesPermit h' Phase.start = false from rfl,
          show usesPermit h' (Phase.hasPermit h') = true from by
            simp [usesPermit]] at hc
        simp at hc
        omega
      · simp [hh] at hv
        have hold := hs.sem_count h' v' hv
        rw [show usesPermit h' Phase.start = false from rfl,
          show usesPermit h' (Phase.hasPermit h) = false from by
            simp [usesPermit]
            exact fun hhh => absurd hhh.symm hh] at hc
        simp at hc
        omega
    · intro ph hm
      rcases List.mem_or_eq_of_mem_set hm with hm' | rfl
      · exact hs.time_ok ph hm'
      · trivial
  | claimPort i h p hi hp hfree =>
    refine ⟨?_, ?_, ?_, ?_, ?_⟩ <;> dsimp only
    · intro p' h'
      have hc := countP_set_of_get? (holdsClaim p' h') s.attempts i
        (Phase.hasPermit h) (Phase.hasClaim h p) hi
      rw [show holdsClaim p' h' (Phase.hasPermit h) = false from rfl] at hc
      by_cases hph : h = h' ∧ p = p'
      · rw [show holdsClaim p' h' (Phase.hasClaim h p) =
            decide (h = h' ∧ p = p') from rfl, decide_eq_true_eq.mpr hph] at hc
        have h0 : s.attempts.countP (holdsClaim p' h') = 0 := by
          apply hs.claim_free p' h'
          rw [← hph.1, ← hph.2]
          exact hfree
        simp at hc
        omega
      · rw [show holdsClaim p' h' (Phase.hasClaim h p) =
            decide (h = h' ∧ p = p') from rfl, decide_eq_false hph] at hc
        have := hs.claim_unique p' h'
        simp at hc
        omega
    · intro p' h' hf
      by_cases hph : p' = p ∧ h' = h
      · simp [hph] at hf
      · simp [hph] at hf
        have h0 := hs.claim_free p' h' hf
        have hc := countP_set_of_get? (holdsClaim p' h') s.attempts i
          (Phase.hasPermit h) (Phase.hasClaim h p) hi
        rw [show holdsClaim p' h' (Phase.hasPermit h) = false from rfl,
          show holdsClaim p' h' (Phase.hasClaim h p) =
            decide (h = h' ∧ p = p') from rfl,
          decide_eq_false (fun hand => hph ⟨hand.2.symm, hand.1.symm⟩)] at hc
        simp at hc
        omega
    · intro h' hn
      rw [countP_set_eq (usesPermit h') s.attempts i (Phase.hasPermit h)
        (Phase.hasClaim h p) hi rfl]
      exact hs.sem_none h' hn
    · intro h' v' hv
      rw [countP_set_eq (usesPermit h') s.attempts i (Phase.hasPermit h)
        (Phase.hasClaim h p) hi rfl]
      exact hs.sem_count h' v' hv
    · intro ph hm
      rcases List.mem_or_eq_of_mem_set hm with hm' | rfl
      · exact hs.time_ok ph hm'
      · trivial
  | finishAttempt i h p succ hi =>
    refine ⟨?_, ?_, ?_, ?_, ?_⟩ <;> dsimp only
    · intro p' h'
      rw [countP_set_eq (holdsClaim p' h') s.attempts i (Phase.hasClaim h p)
        (Phase.doneWait h p s.clock succ) hi rfl]
      exact hs.claim_unique p' h'
    · intro p' h' hf
      rw [countP_set_eq (holdsClaim p' h') s.attempts i (Phase.hasClaim h p)
        (Phase.doneWait h p s.clock succ) hi rfl]
      exact hs.claim_free p' h' hf
    · intro h' hn
      rw [countP_set_eq (usesPermit h') s.attempts i (Phase.hasClaim h p)
        (Phase.doneWait h p s.clock succ) hi rfl]
      exact hs.sem_none h' hn
    · intro h' v' hv
      rw [countP_set_eq (usesPermit h') s.attempts i (Phase.hasClaim h p)
        (Phase.doneWait h p s.clock succ) hi rfl]
      exact hs.sem_count h' v' hv
    · intro ph hm
      rcases List.mem_or_eq_of_mem_set hm with hm' | rfl
      · exact hs.time_ok ph hm'
      · exact Nat.le_refl _
  | fireRelease i h p t0 succ hi htime =>
    refine ⟨?_, ?_, ?_, ?_, ?_⟩ <;> dsimp only
    · intro p' h'
      have hc := countP_set_of_get? (holdsClaim p' h') s.attempts i
        (Phase.doneWait h p t0 succ) (Phase.permitOnly h t0 succ s.clock) hi
      rw [show holdsClaim p' h' (Phase.permitOnly h t0 succ s.clock) = false
        from rfl] at hc
      have := hs.claim_unique p' h'
      simp at hc
      omega
    · intro p' h' hf
      have hc := countP_set_of_get? (holdsClaim p' h') s.attempts i
        (Phase.doneWait h p t0 succ) (Phase.permitOnly h t0 succ s.clock) hi
      rw [show holdsClaim p' h' (Phase.permitOnly h t0 succ s.clock) = false
        from rfl] at hc
      by_cases hph : p' = p ∧ h' = h
      · have h1 : holdsClaim p' h' (Phase.doneWait h p t0 succ) = true := by
          rw [show holdsClaim p' h' (Phase.doneWait h p t0 succ) =
            decide (h = h' ∧ p = p') from rfl]
          exact decide_eq_true_eq.mpr ⟨hph.2.symm, hph.1.symm⟩
        have hge : 1 ≤ s.attempts.countP (holdsClaim p' h') :=
          countP_pos_of_get? _ _ _ _ hi h1
        have hle := hs.claim_unique p' h'
        rw [h1] at hc
        simp at hc
        omega
      · simp [hph] at hf
        have h0 := hs.claim_free p' h' hf
        simp at hc
        omega
    · intro h' hn
      rw [countP_set_eq (usesPermit h') s.attempts i (Phase.doneWait h p t0 succ)
        (Phase.permitOnly h t0 succ s.clock) hi rfl]
      exact hs.sem_none h' hn
    · intro h' v' hv
      rw [countP_set_eq (usesPermit h') s.attempts i (Phase.doneWait h p t0 succ)
        (Phase.permitOnly h t0 succ s.clock) hi rfl]
      exact hs.sem_count h' v' hv
    · intro ph hm
      rcases List.mem_or_eq_of_mem_set hm with hm' | rfl
      · exact hs.time_ok ph hm'
      · exact ⟨htime, Nat.le_refl _⟩
  | releasePermit i h t0 succ rt v hi hsem =>
    refine ⟨?_, ?_, ?_, ?_, ?_⟩ <;> dsimp only
    · intro p' h'
      rw [countP_set_eq (holdsClaim p' h') s.attempts i
        (Phase.permitOnly h t0 succ rt) (Phase.finished h t0 succ rt s.clock)
        hi rfl]
      exact hs.claim_unique p' h'
    · intro p' h' hf
      rw [countP_set_eq (holdsClaim p' h') s.attempts i
        (Phase.permitOnly h t0 succ rt) (Phase.finished h t0 succ rt s.clock)
        hi rfl]
      exact hs.claim_free p' h' hf
    · intro h' hn
      by_cases hh : h' = h
      · simp [hh] at hn
      · simp [hh] at hn
        rw [countP_set_eq (usesPermit h') s.attempts i
          (Phase.permitOnly h t0 succ rt) (Phase.finished h t0 succ rt s.clock)
          hi ?_]
        · exact hs.sem_none h' hn
        · show usesPermit h' (Phase.permitOnly h t0 succ rt) =
            usesPermit h' (Phase.finished h t0 succ rt s.clock)
          rw [show usesPermit h' (Phase.permitOnly h t0 succ rt) =
            decide (h = h') from rfl,
            show usesPermit h' (Phase.finished h t0 succ rt s.clock) = false
              from rfl]
          simp
          exact fun hhh => absurd hhh.symm hh
    · intro h' v' hv
      have hc := countP_set_of_get? (usesPermit h') s.attempts i
        (Phase.permitOnly h t0 succ rt) (Phase.finished h t0 succ rt s.clock) hi
      by_cases hh : h' = h
      · subst hh
        simp at hv
        have hold := hs.sem_count h' v hsem
        rw [show usesPermit h' (Phase.permitOnly h' t0 succ rt) = true from by
            simp [usesPermit],
          show usesPermit h' (Phase.finished h' t0 succ rt s.clock) = false
            from rfl] at hc
        simp at hc
        omega
      · simp [hh] at hv
        have hold := hs.sem_count h' v' hv
        rw [show usesPermit h' (Phase.permitOnly h t0 succ rt) = false from by
            simp [usesPermit]
            exact fun hhh => absurd hhh.symm hh,
          show usesPermit h' (Phase.finished h t0 succ rt s.clock) = false
            from rfl] at hc
        simp at hc
        omega
    · intro ph hm
      rcases List.mem_or_eq_of_mem_set hm with hm' | rfl
      · exact hs.time_ok ph hm'
      · have hold := hs.time_ok _ (List.get?_mem hi)
        simp [timeOk] at hold ⊢
        omega

theorem reachable_inv (cfg : SchedConfig) (s : SchedState)
    (hr : Reachable cfg s) : Inv cfg s := by
  induction hr with
  | refl => exact inv_init cfg
  | tail _hsteps hstep ih => exact inv_step hstep ih

/-- Demonstration configuration: one port, both cool-downs 5. -/
def demoCfg : SchedConfig := ⟨1, 5, 5⟩

def demoS1 : SchedState :=
  { initState with attempts := initState.attempts ++ [.start] }

def demoS2 : SchedState :=
  { demoS1 with
    sem := fun h' => if h' = 0 then some demoCfg.numPorts else demoS1.sem h' }

def demoS3 : SchedState :=
  { demoS2 with
    sem := fun h' => if h' = 0 then some 0 else demoS2.sem h',
    attempts := demoS2.attempts.set 0 (.hasPermit 0) }

def demoS4 : SchedState :=
  { demoS3 with
    claimed := fun p' h' => if p' = 0 ∧ h' = 0 then true else demoS3.claimed p' h',
    attempts := demoS3.attempts.set 0 (.hasClaim 0 0) }

def demoS5 : SchedState :=
  { demoS4 with
    attempts := demoS4.attempts.set 0 (.doneWait 0 0 demoS4.clock false) }

def demoS6 : SchedState := { demoS5 with clock := demoS5.clock + 1 }

def demoS7 : SchedState := { demoS6 with clock := demoS6.clock + 1 }

def demoS8 : SchedState := { demoS7 with clock := demoS7.clock + 1 }

def demoS9 : SchedState := { demoS8 with clock := demoS8.clock + 1 }

def demoS10 : SchedState := { demoS9 with clock := demoS9.clock + 1 }

def demoS11 : SchedState :=
  { demoS10 with
    claimed := fun p' h' => if p' = 0 ∧ h' = 0 then false else demoS10.claimed p' h',
    attempts := demoS10.attempts.set 0 (.permitOnly 0 0 false demoS10.clock) }

def demoS12 : SchedState :=
  { demoS11 with
    sem := fun h' => if h' = 0 then some (0 + 1) else demoS11.sem h',
    attempts := demoS11.attempts.set 0 (.finished 0 0 false 5 demoS11.clock) }

theorem demoReachable5 : Reachable demoCfg demoS5 := by
  refine Relation.ReflTransGen.head (Step.spawn initState) ?_
  refine Relation.ReflTransGen.head (Step.createSem demoS1 0 rfl) ?_
  refine Relation.ReflTransGen.head (Step.acquirePermit demoS2 0 0 0 rfl rfl) ?_
  refine Relation.ReflTransGen.head
    (Step.claimPort demoS3 0 0 0 rfl (by decide) rfl) ?_
  exact Relation.ReflTransGen.single (Step.finishAttempt demoS4 0 0 0 false rfl)

theorem demoReachable12 : Reachable demoCfg demoS12 := by
  refine Relation.ReflTransGen.trans demoReachable5 ?_
  refine Relation.ReflTransGen.head (Step.tick demoS5) ?_
  refine Relation.ReflTransGen.head (Step.tick demoS6) ?_
  refine Relation.ReflTransGen.head (Step.tick demoS7) ?_
  refine Relation.ReflTransGen.head (Step.tick demoS8) ?_
  refine Relation.ReflTransGen.head (Step.tick demoS9) ?_
  refine Relation.ReflTransGen.head
    (Step.fireRelease demoS10 0 0 0 0 false rfl (by decide)) ?_
  exact Relation.ReflTransGen.single
    (Step.releasePermit demoS11 0 0 0 false 5 0 rfl rfl)

/--
C2: in every reachable scheduler state, each (port, hostname) pair is claimed
by at most one in-flight attempt — `getAvailablePort` claims a port only by
the atomic check-and-add under the port's mutex, so two concurrent attempts
never hold the same pair.
-/
theorem claim_pair_exclusive (cfg : SchedConfig) (s : SchedState)
    (hr : Reachable cfg s) (p h : Nat) :
    s.attempts.countP (holdsClaim p h) ≤ 1 :=
  (reachable_inv cfg s hr).claim_unique p h

/-- C2 witness: the theorem at a concrete reachable state holding one live
claim on (port 0, hostname 0). -/
theorem claim_pair_exclusive_witness :
    demoS5.attempts.countP (holdsClaim 0 0) ≤ 1 :=
  claim_pair_exclusive demoCfg demoS5 demoReachable5 0 0

/--
C3: in every reachable scheduler state, the number of in-flight attempts for
one hostname — past acquisition of the lazily created permit pool of capacity
`numPorts` and before release — never exceeds the number of configured ports.
-/
theorem hostname_concurrency_bounded (cfg : SchedConfig) (s : SchedState)
    (hr : Reachable cfg s) (h : Nat) :
    s.attempts.countP (usesPermit h) ≤ cfg.numPorts := by
  have hinv := reachable_inv cfg s hr
  cases hsem : s.sem h with
  | none =>
    rw [hinv.sem_none h hsem]
    exact Nat.zero_le _
  | some v =>
    have := hinv.sem_count h v hsem
    omega

/-- C3 witness: the theorem at a concrete reachable state with one in-flight
attempt and one configured port. -/
theorem hostname_concurrency_bounded_witness :
    demoS5.attempts.countP (usesPermit 0) ≤ demoCfg.numPorts :=
  hostname_concurrency_bounded demoCfg demoS5 demoReachable5 0

/-- The first five steps of a probe trace over an arbitrary configuration
with at least one port: one attempt is spawned, takes a permit and a claim
for hostname 0 on port 0, and completes with a failed outcome at time 0. -/
def probeS1 (_cfg : SchedConfig) : SchedState :=
  { initState with attempts := initState.attempts ++ [.start] }

def probeS2 (cfg : SchedConfig) : SchedState :=
  { probeS1 cfg with
    sem := fun h' => if h' = 0 then some cfg.numPorts else (probeS1 cfg).sem h' }

def probeS3 (cfg : SchedConfig) : SchedState :=
  { probeS2 cfg with
    sem := fun h' => if h' = 0 then some (cfg.numPorts - 1)
      else (probeS2 cfg).sem h',
    attempts := (probeS2 cfg).attempts.set 0 (.hasPermit 0) }

def probeS4 (cfg : SchedConfig) : SchedState :=
  { probeS3 cfg with
    claimed := fun p' h' => if p' = 0 ∧ h' = 0 then true
      else (probeS3 cfg).claimed p' h',
    attempts := (probeS3 cfg).attempts.set 0 (.hasClaim 0 0) }

def probeS5 (cfg : SchedConfig) : SchedState :=
  { probeS4 cfg with
    attempts := (probeS4 cfg).attempts.set 0
      (.doneWait 0 0 (probeS4 cfg).clock false) }

/--
C5: in every reachable scheduler state, a completed release of a (port,
hostname) claim happened no sooner than `sameHostnameSuccessDelay` after a
successful outcome and no sooner than `sameHostnameErrorDelay` after a failed
one, and the permit release happens no earlier than the claim release;
moreover the release is asynchronous: a state is reachable in which an
attempt's outcome is already known (the caller has its result) while the
cool-down has not yet elapsed, so the claim is still held.
-/
theorem release_cooldown_respected (cfg : SchedConfig) (s : SchedState)
    (hr : Reachable cfg s) (hp : 0 < cfg.numPorts) (hd : 0 < cfg.errorDelay) :
    (∀ i h t0 succ rt,
        s.attempts.get? i = some (.permitOnly h t0 succ rt) →
        t0 + relDelay cfg succ ≤ rt) ∧
    (∀ i h t0 succ rt prt,
        s.attempts.get? i = some (.finished h t0 succ rt prt) →
        t0 + relDelay cfg succ ≤ rt ∧ rt ≤ prt) ∧
    (∃ s', Reachable cfg s' ∧ ∃ t0 succ,
        s'.attempts.get? 0 = some (.doneWait 0 0 t0 succ) ∧
        s'.clock < t0 + relDelay cfg succ) := by
  have hinv := reachable_inv cfg s hr
  refine ⟨?_, ?_, ?_⟩
  · intro i h t0 succ rt hget
    have := hinv.time_ok _ (List.get?_mem hget)
    exact this.1
  · intro i h t0 succ rt prt hget
    have := hinv.time_ok _ (List.get?_mem hget)
    exact ⟨this.1, this.2.1⟩
  · refine ⟨probeS5 cfg, ?_, 0, false, ?_, ?_⟩
    · refine Relation.ReflTransGen.head (Step.spawn initState) ?_
      refine Relation.ReflTransGen.head (Step.createSem (probeS1 cfg) 0 rfl) ?_
      refine Relation.ReflTransGen.head
        (Step.acquirePermit (probeS2 cfg) 0 0 (cfg.numPorts - 1) rfl
          (by simp [probeS2, probeS1, initState, Nat.sub_add_cancel hp])) ?_
      refine Relation.ReflTransGen.head
        (Step.claimPort (probeS3 cfg) 0 0 0 rfl hp rfl) ?_
      exact Relation.ReflTransGen.single
        (Step.finishAttempt (probeS4 cfg) 0 0 0 false rfl)
    · rfl
    · have hclk : (probeS5 cfg).clock = 0 := rfl
      rw [hclk]
      simpa [relDelay] using hd

/-- C5 witness: the theorem at a concrete reachable state whose attempt was
released at time 5 after a failed outcome at time 0 with error cool-down 5. -/
theorem release_cooldown_respected_witness :
    0 + relDelay demoCfg false ≤ 5 ∧ (5 : Nat) ≤ 5 :=
  (release_cooldown_respected demoCfg demoS12 demoReachable12 (by decide)
    (by decide)).2.1 0 0 0 false 5 5 rfl

/-! ### Product-schema extraction
(`siteHandlerUsingProductSchemaAxios.ts` and
`siteHandlerUsingProductSchemaNoStealth.ts`) -/

/-- A JS number as it appears in the handlers' validation logic: NaN, the
infinities, or a finite value over `ℚ`. -/
inductive JsNum where
  | nan
  | posInf
  | negInf
  | rat (q : ℚ)
  deriving DecidableEq

/-- JS `isNaN` on a number. -/
def JsNum.isNaN : JsNum → Bool
  | .nan => true
  | _ => false

/-- JS `price < 0`; comparisons with NaN are false. -/
def JsNum.ltZero : JsNum → Bool
  | .nan => false
  | .posInf => false
  | .negInf => true
  | .rat q => decide (q < 0)

/-- JS `price >= 0`; comparisons with NaN are false. -/
def JsNum.geZero : JsNum → Bool
  | .nan => false
  | .posInf => true
  | .negInf => false
  | .rat q => decide (0 ≤ q)

theorem JsNum.geZero_of_checks (n : JsNum) (h1 : n.isNaN = false)
    (h2 : n.ltZero = false) : n.geZero = true := by
  cases n <;> simp_all [JsNum.isNaN, JsNum.ltZero, JsNum.geZero]

/-- A parsed JSON-LD value. -/
inductive Json where
  | null
  | bool (b : Bool)
  | num (n : JsNum)
  | str (s : List Char)
  | arr (xs : List Json)
  | obj (fields : List (List Char × Json))

/-- JS property access `o[k]`: `none` is `undefined`; property access on a
primitive or array yields `undefined` for the keys used here; object lookup
takes the (first) binding of the key. -/
def jget : Json → List Char → Option Json
  | .obj fields, k => (fields.find? (fun kv => decide (kv.1 = k))).map (·.2)
  | _, _ => none

/-- JS truthiness. -/
def truthy : Json → Bool
  | .null => false
  | .bool b => b
  | .num n =>
    match n with
    | .nan => false
    | .rat q => decide (q ≠ 0)
    | _ => true
  | .str s => decide (s ≠ [])
  | .arr _ => true
  | .obj _ => true

/-- The JS `\s` / `trim` whitespace class. -/
def isJsSpace (c : Char) : Bool :=
  decide (c = ' ' ∨ c = Char.ofNat 9 ∨ c = Char.ofNat 10 ∨ c = Char.ofNat 11 ∨
    c = Char.ofNat 12 ∨ c = Char.ofNat 13 ∨ c = Char.ofNat 0xa0 ∨
    c = Char.ofNat 0x1680 ∨ (0x2000 ≤ c.toNat ∧ c.toNat ≤ 0x200a) ∨
    c = Char.ofNat 0x2028 ∨ c = Char.ofNat 0x2029 ∨ c = Char.ofNat 0x202f ∨
    c = Char.ofNat 0x205f ∨ c = Char.ofNat 0x3000 ∨ c = Char.ofNat 0xfeff)

/-- JS `String.prototype.trim`. -/
def trimJs (l : List Char) : List Char :=
  ((l.dropWhile isJsSpace).reverse.dropWhile isJsSpace).reverse

/-- `replaceAll(/\s+/g, " ")`: each maximal whitespace run becomes one
space; `prev` records whether the previous character was whitespace. -/
def collapseWs : Bool → List Char → List Char
  | _, [] => []
  | prev, c :: rest =>
    if isJsSpace c then
      if prev then collapseWs true rest else ' ' :: collapseWs true rest
    else c :: collapseWs false rest

/-- `replaceAll("&amp;amp;", "&")`, left to right, non-overlapping. -/
def replaceAmpAmp : List Char → List Char
  | '&' :: 'a' :: 'm' :: 'p' :: ';' :: 'a' :: 'm' :: 'p' :: ';' :: rest =>
    '&' :: replaceAmpAmp rest
  | c :: rest => c :: replaceAmpAmp rest
  | [] => []

/-- `replaceQuotes` from `src/lib/cleanText.ts`: curly single quotes become
`'` (code 39) and curly double quotes become `"` (code 34). -/
def replaceQuotes (l : List Char) : List Char :=
  l.map fun c =>
    if c = Char.ofNat 0x2018 ∨ c = Char.ofNat 0x2019 ∨ c = Char.ofNat 0x201a ∨
        c = Char.ofNat 0x201b ∨ c = Char.ofNat 0x275b ∨ c = Char.ofNat 0x275c then
      Char.ofNat 39
    else if c = Char.ofNat 0x201c ∨ c = Char.ofNat 0x201d ∨
        c = Char.ofNat 0x201e ∨ c = Char.ofNat 0x201f ∨ c = Char.ofNat 0x2e42 ∨
        c = Char.ofNat 0x275d ∨ c = Char.ofNat 0x275e then
      Char.ofNat 34
    else c

/-- `cleanText` from `src/lib/cleanText.ts`:
`replaceQuotes(text.trim().replaceAll(/\s+/g, " ").replaceAll("&amp;amp;", "&"))`. -/
def cleanText (text : List Char) : List Char :=
  replaceQuotes (replaceAmpAmp (collapseWs false (trimJs text)))

/-- ASCII lowering (`toLowerCase` restricted to the ASCII schema tokens the
handlers compare against). -/
def toLowerL (l : List Char) : List Char := l.map Char.toLower

/-- `x?.trim()` on an optional JSON value: absent or `null` short-circuits to
`undefined`; a string is trimmed; `.trim` on any other value is a
`TypeError`. -/
def optTrim : Option Json → Except String (Option (List Char))
  | none => .ok none
  | some .null => .ok none
  | some (.str s) => .ok (some (trimJs s))
  | some _ => .error "TypeError"

/-- `x?.trim().toLowerCase()`. -/
def optTrimLower (o : Option Json) : Except String (Option (List Char)) := do
  match ← optTrim o with
  | none => pure none
  | some s => pure (some (toLowerL s))

/-- JS `Array.prototype.find`: the first element satisfying the predicate;
a predicate throw propagates. -/
def findFirstM (pred : Json → Except String Bool) :
    List Json → Except String (Option Json)
  | [] => .ok none
  | x :: xs => do
    let b ← pred x
    if b then pure (some x) else findFirstM pred xs

/-- `findInMaybeArray` from the site handlers:
`(data && (Array.isArray(data) ? data.find(predicate) : predicate(data) &&
data)) || null`; `none` stands for both `undefined` and `null` since every
caller treats them alike (optional chaining or a falsiness test). -/
def findInMaybeArray (data : Option Json) (pred : Json → Except String Bool) :
    Except String (Option Json) := do
  match data with
  | none => pure none
  | some d =>
    if truthy d = false then pure none
    else do
      let r ←
        match d with
        | .arr xs => findFirstM pred xs
        | _ => do
          let b ← pred d
          pure (if b then some d else none)
      match r with
      | some v => pure (if truthy v then some v else none)
      | none => pure none

/-- `isOffer`:
`["aggregateoffer", "offer"].includes(offer["@type"]?.trim().toLowerCase())`. -/
def isOffer (offer : Json) : Except String Bool := do
  match ← optTrimLower (jget offer "@type".toList) with
  | some t =>
    pure (decide (t = "aggregateoffer".toList ∨ t = "offer".toList))
  | none => pure false

/-- One operand of the `??` chain: `null` and `undefined` are skipped. -/
def nonNullish : Option Json → Option Json
  | some .null => none
  | o => o

/-- The record the handlers return. -/
structure ItemInfo where
  name : List Char
  image : Option (List Char)
  price : JsNum
  available : Bool

/-- `product.name || ""`. -/
def nameArgOf (product : Json) : Json :=
  match jget product "name".toList with
  | some v => if truthy v then v else .str []
  | none => .str []

/-- `const name = cleanText(product.name || "")`; `cleanText` calls `.trim`,
a `TypeError` on a non-string truthy value. -/
def extractName (product : Json) : Except String (List Char) :=
  match nameArgOf product with
  | .str s => .ok (cleanText s)
  | _ => .error "TypeError"

/-- `const _image = (findInMaybeArray(product.image, () => true)?.trim() ||
null); const image = _image && cleanImageUrl(_image, origin)`. -/
def extractImage (product : Json) (origin : List Char) :
    Except String (Option (List Char)) := do
  let found ← findInMaybeArray (jget product "image".toList) (fun _ => pure true)
  let mimg ← optTrim found
  match mimg with
  | some s => if s = [] then pure none else pure (some (cleanImageUrl s origin))
  | none => pure none

/-- `const offer = findInMaybeArray(product.offers, isOffer); if (!offer)
throw` — the falsy check collapses with the `|| null` normalization. -/
def extractOffer (product : Json) : Except String Json := do
  let o ← findInMaybeArray (jget product "offers".toList) isOffer
  match o with
  | some offer => pure offer
  | none => throw "Could not find product offer"

/-- `const currency = offer.priceCurrency?.trim().toLowerCase();
if (currency && currency !== "usd") throw`. -/
def checkCurrency (offer : Json) : Except String Unit := do
  let c ← optTrimLower (jget offer "priceCurrency".toList)
  match c with
  | some s =>
    if s ≠ [] ∧ s ≠ "usd".toList then throw "Item price is not in USD"
    else pure ()
  | none => pure ()

/-- The Axios variant's raw price: `offer.lowPrice ?? offer.minPrice ??
offer.price ?? (Array.isArray(offer.priceSpecification) ?
offer.priceSpecification[0]?.price : undefined)`. -/
def rawPriceAxios (offer : Json) : Option Json :=
  match nonNullish (jget offer "lowPrice".toList) with
  | some v => some v
  | none =>
    match nonNullish (jget offer "minPrice".toList) with
    | some v => some v
    | none =>
      match nonNullish (jget offer "price".toList) with
      | some v => some v
      | none =>
        match jget offer "priceSpecification".toList with
        | some (.arr xs) =>
          match xs.head? with
          | some .null => none
          | some e => jget e "price".toList
          | none => none
        | _ => none

/-- The NoStealth variant's raw price:
`offer.lowPrice ?? offer.minPrice ?? offer.price`. -/
def rawPriceNoStealth (offer : Json) : Option Json :=
  match nonNullish (jget offer "lowPrice".toList) with
  | some v => some v
  | none =>
    match nonNullish (jget offer "minPrice".toList) with
    | some v => some v
    | none => jget offer "price".toList

/-- `typeof rawPrice === "number" ? rawPrice : typeof rawPrice === "string" ?
parseFloat(rawPrice.trim()) : NaN`; `parseFloat` is the JS builtin, taken as
an uninterpreted function. -/
def priceOf (parseFloat : List Char → JsNum) (raw : Option Json) : JsNum :=
  match raw with
  | some (.num n) => n
  | some (.str s) => parseFloat (trimJs s)
  | _ => .nan

/-- `const availability = offer.availability?.trim().toLowerCase()
.endsWith("/instock"); if (typeof availability !== "boolean") throw`. -/
def extractAvailability (offer : Json) : Except String Bool := do
  let a ← optTrimLower (jget offer "availability".toList)
  match a with
  | some s => pure (endsWithL s "/instock".toList)
  | none => throw "Invalid availability"

/-- `if (!name) throw new Error("Missing name")`. -/
def requireNonEmptyName (name : List Char) : Except String Unit :=
  if name = [] then throw "Missing name" else pure ()

/-- `if (isNaN(price) || price < 0) throw new Error("Invalid price")`. -/
def requirePriceValid (price : JsNum) : Except String Unit :=
  if price.isNaN || price.ltZero then throw "Invalid price" else pure ()

theorem requireNonEmptyName_ok {name : List Char} {u : Unit}
    (h : requireNonEmptyName name = Except.ok u) : name ≠ [] := by
  intro he
  unfold requireNonEmptyName at h
  rw [if_pos he] at h
  exact Except.noConfusion h

theorem requirePriceValid_ok {p : JsNum} {u : Unit}
    (h : requirePriceValid p = Except.ok u) :
    p.isNaN = false ∧ p.ltZero = false := by
  unfold requirePriceValid at h
  cases hcond : (p.isNaN || p.ltZero) with
  | false => exact Bool.or_eq_false_iff.mp hcond
  | true =>
    rw [hcond] at h
    simp at h

/-- `getItemInfoFromProductSchema` of
`siteHandlerUsingProductSchemaAxios.ts`. -/
def getItemInfoFromProductSchemaAxios (parseFloat : List Char → JsNum)
    (product : Json) (origin : List Char) : Except String ItemInfo := do
  let name ← extractName product
  requireNonEmptyName name
  let image ← extractImage product origin
  let offer ← extractOffer product
  checkCurrency offer
  requirePriceValid (priceOf parseFloat (rawPriceAxios offer))
  let available ← extractAvailability offer
  pure { name := name, image := image,
         price := priceOf parseFloat (rawPriceAxios offer),
         available := available }

/-- `getItemInfoFromProductSchema` of
`siteHandlerUsingProductSchemaNoStealth.ts` — identical except for the raw
price fallback chain. -/
def getItemInfoFromProductSchemaNoStealth (parseFloat : List Char → JsNum)
    (product : Json) (origin : List Char) : Except String ItemInfo := do
  let name ← extractName product
  requireNonEmptyName name
  let image ← extractImage product origin
  let offer ← extractOffer product
  checkCurrency offer
  requirePriceValid (priceOf parseFloat (rawPriceNoStealth offer))
  let available ← extractAvailability offer
  pure { name := name, image := image,
         price := priceOf parseFloat (rawPriceNoStealth offer),
         available := available }

theorem except_bind_ok {ε α β : Type} {x : Except ε α} {f : α → Except ε β}
    {b : β} (h : x >>= f = Except.ok b) :
    ∃ a, x = Except.ok a ∧ f a = Except.ok b := by
  cases x with
  | ok a => exact ⟨a, rfl, h⟩
  | error e =>
    rw [show (Except.error e : Except ε α) >>= f = Except.error e from rfl] at h
    exact Except.noConfusion h

/--
C10: whenever `getItemInfoFromProductSchema` (either variant) returns a
record instead of throwing, the record's `name` is a non-empty string, its
`price` is a number that is neither NaN nor negative (so `price >= 0` holds
in the JS order), and its `available` field is a boolean; inputs violating
these conditions are rejected by a throw before the return.
-/
theorem productSchema_record_valid (pf : List Char → JsNum) (product : Json)
    (origin : List Char) (r : ItemInfo) :
    (getItemInfoFromProductSchemaAxios pf product origin = .ok r →
      r.name ≠ [] ∧ r.price.isNaN = false ∧ r.price.geZero = true ∧
      (r.available = true ∨ r.available = false)) ∧
    (getItemInfoFromProductSchemaNoStealth pf product origin = .ok r →
      r.name ≠ [] ∧ r.price.isNaN = false ∧ r.price.geZero = true ∧
      (r.available = true ∨ r.available = false)) := by
  constructor
  · intro h
    unfold getItemInfoFromProductSchemaAxios at h
    obtain ⟨name, hname, h⟩ := except_bind_ok h
    obtain ⟨u1, hguard, h⟩ := except_bind_ok h
    have hne : name ≠ [] := requireNonEmptyName_ok hguard
    obtain ⟨image, himg, h⟩ := except_bind_ok h
    obtain ⟨offer, hoff, h⟩ := except_bind_ok h
    obtain ⟨u2, hcur, h⟩ := except_bind_ok h
    obtain ⟨u3, hpg, h⟩ := except_bind_ok h
    have hprice := requirePriceValid_ok hpg
    obtain ⟨available, hav, h⟩ := except_bind_ok h
    have hr : ItemInfo.mk name image (priceOf pf (rawPriceAxios offer))
        available = r := Except.ok.inj h
    subst hr
    refine ⟨hne, hprice.1, JsNum.geZero_of_checks _ hprice.1 hprice.2, ?_⟩
    cases available
    · exact Or.inr rfl
    · exact Or.inl rfl
  · intro h
    unfold getItemInfoFromProductSchemaNoStealth at h
    obtain ⟨name, hname, h⟩ := except_bind_ok h
    obtain ⟨u1, hguard, h⟩ := except_bind_ok h
    have hne : name ≠ [] := requireNonEmptyName_ok hguard
    obtain ⟨image, himg, h⟩ := except_bind_ok h
    obtain ⟨offer, hoff, h⟩ := except_bind_ok h
    obtain ⟨u2, hcur, h⟩ := except_bind_ok h
    obtain ⟨u3, hpg, h⟩ := except_bind_ok h
    have hprice := requirePriceValid_ok hpg
    obtain ⟨available, hav, h⟩ := except_bind_ok h
    have hr : ItemInfo.mk name image (priceOf pf (rawPriceNoStealth offer))
        available = r := Except.ok.inj h
    subst hr
    refine ⟨hne, hprice.1, JsNum.geZero_of_checks _ hprice.1 hprice.2, ?_⟩
    cases available
    · exact Or.inr rfl
    · exact Or.inl rfl

/-- A concrete `parseFloat` sample for the witness. -/
def demoParseFloat : List Char → JsNum := fun _ => .rat 7

/-- A concrete well-formed product schema for the witness. -/
def demoProduct : Json :=
  .obj [("name".toList, .str "Widget".toList),
        ("offers".toList, .obj
          [("@type".toList, .str "Offer".toList),
           ("price".toList, .str "7".toList),
           ("availability".toList, .str "https://schema.org/InStock".toList)])]

/-- The record both variants return on `demoProduct`. -/
def demoItem : ItemInfo :=
  { name := "Widget".toList, image := none, price := .rat 7, available := true }

/-- C10 witness: the theorem at a concrete product whose extraction
succeeds in both variants. -/
theorem productSchema_record_valid_witness :
    demoItem.name ≠ [] ∧ demoItem.price.isNaN = false ∧
    demoItem.price.geZero = true ∧
    (demoItem.available = true ∨ demoItem.available = false) :=
  (productSchema_record_valid demoParseFloat demoProduct
    "https://x.example".toList demoItem).1 rfl

end WebscrapingApi
